import Mathlib

set_option maxHeartbeats 1000000
set_option linter.dupNamespace false

namespace Maud

/-- Delimiters of a token group, as in the token model used by `parse.rs`. -/
inductive Delim where
  | Paren
  | Bracket
  | Brace
  deriving DecidableEq

/-- Literal kinds, mirroring the `syntax::ast` literal variants consumed by
`lit_to_string` in `parse.rs`. -/
inductive Lit where
  | LitStr (s : String)
  | LitBinary
  | LitByte
  | LitChar (c : Char)
  | LitInt (x : Nat)
  | LitFloat (s : String)
  | LitFloatUnsuffixed (s : String)
  | LitBool (b : Bool)
  deriving DecidableEq

/-- Atomic tokens, mirroring the token patterns used in `parse.rs`
(the `dollar!`, `dot!`, `eq!`, `not!`, `question!`, `semi!`, `minus!`,
`slash!`, `literal!` and `ident!` pattern macros). -/
inductive Token where
  | Dollar
  | Dot
  | Eq
  | Not
  | Question
  | Semi
  | Minus
  | Slash
  | Literal (l : Lit)
  | Ident (name : String)
  deriving DecidableEq

/-- A token tree: an atomic token or a delimited group (`TtToken` /
`TtDelimited`).  Source spans are abstracted as natural numbers. -/
inductive TokenTree where
  | TtToken (sp : Nat) (t : Token)
  | TtDelimited (sp : Nat) (delim : Delim) (tts : List TokenTree)

/-- The span of a token tree (`TokenTree::get_span`). -/
def TokenTree.get_span : TokenTree → Nat
  | .TtToken sp _ => sp
  | .TtDelimited sp _ _ => sp

mutual

/-- Weight of a token tree: one per atomic token and per group delimiter.
Used as the termination measure of the parser. -/
def wt : TokenTree → Nat
  | .TtToken _ _ => 1
  | .TtDelimited _ _ tts => 1 + wts tts

/-- Total weight of a list of token trees. -/
def wts : List TokenTree → Nat
  | [] => 0
  | t :: ts => wt t + wts ts

end

/-- Modelled from the spec: the external expression sub-parser (spec section 6)
is out of scope, so an expression is represented by the token slice handed to
it; a slice consisting of a single parenthesized group corresponds to a
parenthesized expression. -/
structure Expr where
  tts : List TokenTree

/-- Modelled from the spec: handing a token slice to the expression
sub-parser (`new_rust_parser(..).parse_expr()`). -/
def parse_expr (tts : List TokenTree) : Expr := ⟨tts⟩

/-- If the expression is wrapped in parentheses, strip them off
(`strip_outer_parens` in `parse.rs`). -/
def strip_outer_parens (e : Expr) : Expr :=
  match e.tts with
  | [TokenTree.TtDelimited _ Delim.Paren inner] => ⟨inner⟩
  | _ => e

/-- Convert a literal to a string (`lit_to_string` in `parse.rs`).  A leading
minus pushes a single `-` character first; binary and byte literals are
unsupported and yield `none` (with the caller reporting
"cannot splice binary data"). -/
def lit_to_string (l : Lit) (minus : Bool) : Option String :=
  let result := if minus then "-" else ""
  match l with
  | .LitStr s => some (result ++ s)
  | .LitBinary => none
  | .LitByte => none
  | .LitChar c => some (result ++ String.singleton c)
  | .LitInt x => some (result ++ toString x)
  | .LitFloat s => some (result ++ s)
  | .LitFloatUnsuffixed s => some (result ++ s)
  | .LitBool b => some (result ++ if b then "true" else "false")

/-- Escape mode (`render::Escape`). -/
inductive Escape where
  | Escape
  | PassThru
  deriving DecidableEq

/-- Modelled from the spec: the operations recorded by the Output Accumulator
(the `Renderer`); `render.rs` is not among the sources, so its methods are
recorded symbolically, one operation per method call, following the
accumulator contract of spec section 6. -/
inductive Op where
  | string (s : String) (esc : Escape)
  | splice (e : Expr) (esc : Escape)
  | element_open_start (name : String)
  | element_open_end
  | element_close (name : String)
  | attribute_start (name : String)
  | attribute_end
  | attribute_empty (name : String)
  | push_stmts (stmts : List Op)
  | emit_if (cond : Expr) (body : List Op) (else_body : Option (List Op))

/-- A reported diagnostic: span and message. -/
abbrev Diag := Nat × String

/-- Parser state (`struct Parser`): the `in_attr` flag, the remaining input,
the current span, plus the current accumulator's recorded operations and the
diagnostics reported so far (`span_err`). -/
structure PState where
  in_attr : Bool
  input : List TokenTree
  span : Nat
  ops : List Op
  errs : List Diag

/-- Consume `n` items from the input (`Parser::shift`). -/
def PState.shift (s : PState) (n : Nat) : PState :=
  { s with input := s.input.drop n }

/-- Record an operation on the current accumulator. -/
def PState.push (s : PState) (op : Op) : PState :=
  { s with ops := s.ops ++ [op] }

/-- Report a recoverable diagnostic (`span_err`). -/
def PState.err (s : PState) (sp : Nat) (msg : String) : PState :=
  { s with errs := s.errs ++ [(sp, msg)] }

/-- Result of a parsing step: a normal result, a fatal error (`span_fatal`,
which aborts the whole parse), or out of fuel.  The fuel parameter makes the
mutual recursion structural; the termination theorem shows that enough fuel
always exists. -/
inductive PR (α : Type) where
  | ok (a : α)
  | fatal (sp : Nat) (msg : String)
  | oof

/-- Parse a literal token (`Parser::literal`): convert it and append it as an
escaped string, or report "cannot splice binary data" and append nothing. -/
def literal (tt : TokenTree) (minus : Bool) (s : PState) : PState :=
  match tt with
  | .TtToken sp (.Literal l) =>
    match lit_to_string l minus with
    | some str => s.push (.string str .Escape)
    | none => s.err sp "cannot splice binary data"
  | _ => s

/-- The tail of `Parser::splice`: fatal if nothing was captured, otherwise
hand the captured slice to the expression sub-parser. -/
def splice_finish (sp : Nat) (tts : List TokenTree) (s : PState) : PR (Expr × PState) :=
  if tts.isEmpty then .fatal sp "expected expression for this splice"
  else .ok (parse_expr tts, s)

/-- The continuation test of the `splice` munch loop: a dot followed by an
identifier, or a non-brace delimited group. -/
def splice_cont : List TokenTree → Bool
  | .TtToken _ .Dot :: .TtToken _ (.Ident _) :: _ => true
  | .TtDelimited _ .Brace _ :: _ => false
  | .TtDelimited _ _ _ :: _ => true
  | _ => false

/-- Whether an operation is a conditional-branch (emit-if) operation. -/
def is_emit_if : Op → Bool
  | .emit_if _ _ _ => true
  | _ => false

mutual

/-- Top-level loop (`Parser::markups`): skip stray semicolons, dispatch each
unit, stop when the input is exhausted or dispatch reports failure. -/
def markups : Nat → PState → PR PState
  | 0, _ => .oof
  | fuel + 1, s =>
    match s.input with
    | [] => .ok s
    | .TtToken _ .Semi :: _ => markups fuel (s.shift 1)
    | _ :: _ =>
      match markup fuel s with
      | .ok (true, s1) => markups fuel s1
      | .ok (false, s1) => .ok s1
      | .fatal a b => .fatal a b
      | .oof => .oof

  termination_by structural fuel _ => fuel
/-- Unit dispatch (`Parser::markup`): ordered first-match-wins prefix
patterns over the next one-to-two tokens. -/
def markup : Nat → PState → PR (Bool × PState)
  | 0, _ => .oof
  | fuel + 1, s =>
    match s.input with
    | .TtToken _ .Minus :: .TtToken sp (.Literal l) :: _ =>
      .ok (true, literal (.TtToken sp (.Literal l)) true (s.shift 2))
    | .TtToken sp (.Literal l) :: _ =>
      .ok (true, literal (.TtToken sp (.Literal l)) false (s.shift 1))
    | .TtToken dsp .Dollar :: .TtToken isp (.Ident name) :: _ =>
      if name = "if" then
        match if_expr_loop fuel isp [] (s.shift 2) with
        | .ok s1 => .ok (true, s1)
        | .fatal a b => .fatal a b
        | .oof => .oof
      else
        match splice fuel dsp (s.shift 1) with
        | .ok (e, s1) => .ok (true, s1.push (.splice e .Escape))
        | .fatal a b => .fatal a b
        | .oof => .oof
    | .TtToken dsp .Dollar :: .TtToken _ .Dollar :: _ =>
      match splice fuel dsp (s.shift 2) with
      | .ok (e, s1) => .ok (true, s1.push (.splice e .PassThru))
      | .fatal a b => .fatal a b
      | .oof => .oof
    | .TtToken dsp .Dollar :: _ =>
      match splice fuel dsp (s.shift 1) with
      | .ok (e, s1) => .ok (true, s1.push (.splice e .Escape))
      | .fatal a b => .fatal a b
      | .oof => .oof
    | .TtToken sp (.Ident name) :: _ =>
      match element fuel sp name (s.shift 1) with
      | .ok s1 => .ok (true, s1)
      | .fatal a b => .fatal a b
      | .oof => .oof
    | .TtDelimited gsp .Brace tts :: _ =>
      match block fuel gsp tts (s.shift 1) with
      | .ok (stmts, s1) => .ok (true, s1.push (.push_stmts stmts))
      | .fatal a b => .fatal a b
      | .oof => .oof
    | tt :: _ => .ok (false, s.err tt.get_span "invalid syntax")
    | [] => .ok (false, s.err s.span "unexpected end of block")

  termination_by structural fuel _ => fuel
/-- The body of `Parser::if_expr`: munch condition tokens one at a time until
a brace-delimited group (the then body), then handle the optional else. -/
def if_expr_loop : Nat → Nat → List TokenTree → PState → PR PState
  | 0, _, _, _ => .oof
  | fuel + 1, sp, cond_tts, s =>
    match s.input with
    | .TtDelimited gsp .Brace tts :: _ =>
      match block fuel gsp tts (s.shift 1) with
      | .ok (if_body, s1) => if_else fuel sp (parse_expr cond_tts) if_body s1
      | .fatal a b => .fatal a b
      | .oof => .oof
    | tt :: _ => if_expr_loop fuel sp (cond_tts ++ [tt]) (s.shift 1)
    | [] => .fatal sp "expected body for this `if`"

  termination_by structural fuel _ _ _ => fuel
/-- The else-handling half of `Parser::if_expr`, ending in the single
`emit_if` emission. -/
def if_else : Nat → Nat → Expr → List Op → PState → PR PState
  | 0, _, _, _, _ => .oof
  | fuel + 1, sp, if_cond, if_body, s =>
    match s.input with
    | .TtToken _ .Dollar :: .TtToken _ (.Ident name) :: _ =>
      if name = "else" then
        match (s.shift 2).input with
        | .TtToken isp (.Ident name2) :: _ =>
          if name2 = "if" then
            match if_expr_loop fuel isp [] { (s.shift 2).shift 1 with ops := [] } with
            | .ok s2 =>
              .ok (({ s2 with ops := s.ops }).push (.emit_if if_cond if_body (some s2.ops)))
            | .fatal a b => .fatal a b
            | .oof => .oof
          else .fatal sp "invalid syntax"
        | .TtDelimited gsp .Brace tts :: _ =>
          match block fuel gsp tts ((s.shift 2).shift 1) with
          | .ok (else_body, s2) =>
            .ok (s2.push (.emit_if if_cond if_body (some else_body)))
          | .fatal a b => .fatal a b
          | .oof => .oof
        | _ => .fatal sp "invalid syntax"
      else .ok (s.push (.emit_if if_cond if_body none))
    | _ => .ok (s.push (.emit_if if_cond if_body none))

  termination_by structural fuel _ _ _ _ => fuel
/-- Splice extraction (`Parser::splice`): munch a single token tree
unconditionally, then extend via the munch loop. -/
def splice : Nat → Nat → PState → PR (Expr × PState)
  | 0, _, _ => .oof
  | fuel + 1, sp, s =>
    match s.input with
    | tt :: _ => splice_loop fuel sp [tt] (s.shift 1)
    | [] => splice_loop fuel sp [] s

/-- The munch loop of `Parser::splice`: attribute lookups `.ident` and
non-brace delimited groups. -/
def splice_loop : Nat → Nat → List TokenTree → PState → PR (Expr × PState)
  | 0, _, _, _ => .oof
  | fuel + 1, sp, tts, s =>
    match s.input with
    | .TtToken dsp .Dot :: .TtToken isp (.Ident name) :: _ =>
      splice_loop fuel sp (tts ++ [.TtToken dsp .Dot, .TtToken isp (.Ident name)]) (s.shift 2)
    | .TtDelimited _ .Brace _ :: _ => splice_finish sp tts s
    | .TtDelimited gsp d inner :: _ =>
      splice_loop fuel sp (tts ++ [.TtDelimited gsp d inner]) (s.shift 1)
    | _ => splice_finish sp tts s

  termination_by structural fuel _ _ _ => fuel
/-- Element parsing (`Parser::element`). -/
def element : Nat → Nat → String → PState → PR PState
  | 0, _, _, _ => .oof
  | fuel + 1, sp, name, s =>
    if s.in_attr then
      .ok (s.err sp "unexpected element, you silly bumpkin")
    else
      match attrs fuel (s.push (.element_open_start name)) with
      | .ok s1 =>
        let s2 := s1.push .element_open_end
        match s2.input with
        | .TtToken _ .Slash :: _ => .ok (s2.shift 1)
        | _ =>
          match markup fuel s2 with
          | .ok (_, s3) => .ok (s3.push (.element_close name))
          | .fatal a b => .fatal a b
          | .oof => .oof
      | .fatal a b => .fatal a b
      | .oof => .oof

  termination_by structural fuel _ _ _ => fuel
/-- Attribute parsing (`Parser::attrs`). -/
def attrs : Nat → PState → PR PState
  | 0, _ => .oof
  | fuel + 1, s =>
    match s.input with
    | .TtToken _ (.Ident name) :: .TtToken _ .Eq :: _ =>
      match markup fuel { (s.shift 2).push (.attribute_start name) with in_attr := true } with
      | .ok (_, s2) =>
        attrs fuel (({ s2 with in_attr := s.in_attr }).push .attribute_end)
      | .fatal a b => .fatal a b
      | .oof => .oof
    | .TtToken _ (.Ident name) :: .TtToken _ .Question :: _ =>
      match (s.shift 2).input with
      | .TtToken esp .Eq :: _ =>
        match splice fuel esp ((s.shift 2).shift 1) with
        | .ok (cond, s2) =>
          attrs fuel
            (s2.push (.emit_if (strip_outer_parens cond) [.attribute_empty name] none))
        | .fatal a b => .fatal a b
        | .oof => .oof
      | _ => attrs fuel ((s.shift 2).push (.attribute_empty name))
    | _ => .ok s

  termination_by structural fuel _ => fuel
/-- Block parsing (`Parser::block`): run a fresh sub-parser over the group's
contents against a forked accumulator and return the captured operations. -/
def block : Nat → Nat → List TokenTree → PState → PR (List Op × PState)
  | 0, _, _, _ => .oof
  | fuel + 1, sp, tts, s =>
    match markups fuel { in_attr := s.in_attr, input := tts, span := sp, ops := [], errs := s.errs } with
    | .ok s1 => .ok (s1.ops, { s with errs := s1.errs })
    | .fatal a b => .fatal a b
    | .oof => .oof

  termination_by structural fuel _ _ _ => fuel
end

/-- Conditional construct (`Parser::if_expr`), entered with an empty
condition buffer. -/
def if_expr (fuel : Nat) (sp : Nat) (s : PState) : PR PState :=
  if_expr_loop fuel sp [] s


@[simp] theorem PState.shift_input (s : PState) (n : Nat) : (s.shift n).input = s.input.drop n := rfl

@[simp] theorem PState.shift_ops (s : PState) (n : Nat) : (s.shift n).ops = s.ops := rfl

@[simp] theorem PState.shift_in_attr (s : PState) (n : Nat) : (s.shift n).in_attr = s.in_attr := rfl

@[simp] theorem PState.shift_errs (s : PState) (n : Nat) : (s.shift n).errs = s.errs := rfl

@[simp] theorem PState.push_input (s : PState) (op : Op) : (s.push op).input = s.input := rfl

@[simp] theorem PState.push_ops (s : PState) (op : Op) : (s.push op).ops = s.ops ++ [op] := rfl

@[simp] theorem PState.push_in_attr (s : PState) (op : Op) : (s.push op).in_attr = s.in_attr := rfl

@[simp] theorem PState.err_input (s : PState) (sp : Nat) (m : String) : (s.err sp m).input = s.input := rfl

@[simp] theorem PState.err_ops (s : PState) (sp : Nat) (m : String) : (s.err sp m).ops = s.ops := rfl

@[simp] theorem PState.err_errs (s : PState) (sp : Nat) (m : String) : (s.err sp m).errs = s.errs ++ [(sp, m)] := rfl

@[simp] theorem wts_nil : wts [] = 0 := rfl

@[simp] theorem wts_cons (t : TokenTree) (ts : List TokenTree) : wts (t :: ts) = wt t + wts ts := rfl

@[simp] theorem wt_token (sp : Nat) (t : Token) : wt (.TtToken sp t) = 1 := rfl

@[simp] theorem wt_delim (sp : Nat) (d : Delim) (tts : List TokenTree) :
    wt (.TtDelimited sp d tts) = 1 + wts tts := rfl

theorem wt_pos (t : TokenTree) : 1 ≤ wt t := by
  cases t <;> simp

theorem wts_drop_le (n : Nat) (l : List TokenTree) : wts (l.drop n) ≤ wts l := by
  induction l generalizing n with
  | nil => simp
  | cons t ts ih =>
    cases n with
    | zero => exact le_refl _
    | succ m =>
      simp only [List.drop_succ_cons, wts_cons]
      have := ih m
      omega

@[simp] theorem literal_input (tt : TokenTree) (m : Bool) (s : PState) :
    (literal tt m s).input = s.input := by
  unfold literal
  split
  · split <;> rfl
  · rfl

@[simp] theorem literal_in_attr (tt : TokenTree) (m : Bool) (s : PState) :
    (literal tt m s).in_attr = s.in_attr := by
  unfold literal
  split
  · split <;> rfl
  · rfl

/-- Progress: every successful run leaves the remaining input no heavier than
it started, a successful `markup` dispatch (returning `true`) consumes at
least one token, and `block` leaves the enclosing parser untouched except for
diagnostics. -/
theorem parse_progress : ∀ fuel : Nat,
    (∀ s s1, markups fuel s = .ok s1 → wts s1.input ≤ wts s.input) ∧
    (∀ s b s1, markup fuel s = .ok (b, s1) →
      wts s1.input ≤ wts s.input ∧ (b = true → wts s1.input < wts s.input)) ∧
    (∀ sp c s s1, if_expr_loop fuel sp c s = .ok s1 → wts s1.input ≤ wts s.input) ∧
    (∀ sp c b s s1, if_else fuel sp c b s = .ok s1 → wts s1.input ≤ wts s.input) ∧
    (∀ sp s e s1, splice fuel sp s = .ok (e, s1) → wts s1.input ≤ wts s.input) ∧
    (∀ sp tts s e s1, splice_loop fuel sp tts s = .ok (e, s1) → wts s1.input ≤ wts s.input) ∧
    (∀ sp nm s s1, element fuel sp nm s = .ok s1 → wts s1.input ≤ wts s.input) ∧
    (∀ s s1, attrs fuel s = .ok s1 → wts s1.input ≤ wts s.input) ∧
    (∀ sp tts s o s1, block fuel sp tts s = .ok (o, s1) →
      s1.input = s.input ∧ s1.ops = s.ops ∧ s1.in_attr = s.in_attr ∧ s1.span = s.span) := by
  intro fuel
  induction fuel with
  | zero =>
    refine ⟨?_, ?_, ?_, ?_, ?_, ?_, ?_, ?_, ?_⟩ <;> intros <;> rename_i h <;> exact nomatch h
  | succ f ih =>
    obtain ⟨ihms, ihm, ihil, ihie, ihsp, ihsl, ihel, ihat, ihbl⟩ := ih
    refine ⟨?_, ?_, ?_, ?_, ?_, ?_, ?_, ?_, ?_⟩
    -- markups
    · intro s s1 h
      simp only [markups] at h
      split at h
      · cases h; exact le_refl _
      · have h2 := ihms _ _ h
        simp only [PState.shift_input] at h2
        exact le_trans h2 (wts_drop_le _ _)
      · split at h
        · rename_i s2 heq2
          have h3 := ihm _ _ _ heq2
          have h4 := ihms _ _ h
          omega
        · rename_i s2 heq2
          cases h
          exact (ihm _ _ _ heq2).1
        · exact nomatch h
        · exact nomatch h
    -- markup
    · intro s b s1 h
      simp only [markup] at h
      split at h
      · rename_i sp1 sp2 l tail heq
        cases h
        refine ⟨?_, fun _ => ?_⟩ <;> simp [heq] <;> omega
      · rename_i sp l tail heq
        cases h
        refine ⟨?_, fun _ => ?_⟩ <;> simp [heq]
      · rename_i dsp isp name tail heq
        split at h
        · split at h
          · rename_i s2 heq2
            cases h
            have h3 := ihil _ _ _ _ heq2
            simp [heq] at h3 ⊢
            omega
          · exact nomatch h
          · exact nomatch h
        · split at h
          · rename_i e s2 heq2
            cases h
            have h3 := ihsp _ _ _ _ heq2
            simp [heq] at h3 ⊢
            omega
          · exact nomatch h
          · exact nomatch h
      · rename_i dsp sp2 tail heq
        split at h
        · rename_i e s2 heq2
          cases h
          have h3 := ihsp _ _ _ _ heq2
          simp [heq] at h3 ⊢
          omega
        · exact nomatch h
        · exact nomatch h
      · rename_i dsp tail heq
        split at h
        · rename_i e s2 heq2
          cases h
          have h3 := ihsp _ _ _ _ heq2
          simp [heq] at h3 ⊢
          omega
        · exact nomatch h
        · exact nomatch h
      · rename_i sp name tail heq
        split at h
        · rename_i s2 heq2
          cases h
          have h3 := ihel _ _ _ _ heq2
          simp [heq] at h3 ⊢
          omega
        · exact nomatch h
        · exact nomatch h
      · rename_i gsp tts tail heq
        split at h
        · rename_i stmts s2 heq2
          cases h
          have h3 := (ihbl _ _ _ _ _ heq2).1
          refine ⟨?_, fun _ => ?_⟩ <;>
          · simp only [PState.push_input, h3, PState.shift_input, heq, List.drop_succ_cons,
              List.drop_zero, wts_cons, wt_delim]
            omega
        · exact nomatch h
        · exact nomatch h
      · rename_i tt tail heq _
        cases h
        exact ⟨by simp, fun hb => nomatch hb⟩
      · cases h
        exact ⟨by simp, fun hb => nomatch hb⟩
    -- if_expr_loop
    · intro sp c s s1 h
      simp only [if_expr_loop] at h
      split at h
      · rename_i gsp tts tail heq
        split at h
        · rename_i ib s2 heq2
          have h3 := (ihbl _ _ _ _ _ heq2).1
          have h4 := ihie _ _ _ _ _ h
          simp [heq, h3] at h4 ⊢
          omega
        · exact nomatch h
        · exact nomatch h
      · have h2 := ihil _ _ _ _ h
        simp only [PState.shift_input] at h2
        exact le_trans h2 (wts_drop_le _ _)
      · exact nomatch h
    -- if_else
    · intro sp c b s s1 h
      simp only [if_else] at h
      split at h
      · rename_i dsp esp name tail heq
        split at h
        · split at h
          · rename_i isp name2 tail2 heq2
            split at h
            · split at h
              · rename_i s2 heq3
                cases h
                have h3 := ihil _ _ _ _ heq3
                simp [heq] at heq2
                simp [heq, heq2] at h3 ⊢
                omega
              · exact nomatch h
              · exact nomatch h
            · exact nomatch h
          · rename_i gsp tts tail2 heq2
            split at h
            · rename_i eb s2 heq3
              cases h
              have h3 := (ihbl _ _ _ _ _ heq3).1
              simp [heq] at heq2
              simp [heq, heq2, h3] at *
              omega
            · exact nomatch h
            · exact nomatch h
          · exact nomatch h
        · cases h
          simp
      · cases h
        simp
    -- splice
    · intro sp s e s1 h
      simp only [splice] at h
      split at h
      · have h2 := ihsl _ _ _ _ _ h
        simp only [PState.shift_input] at h2
        exact le_trans h2 (wts_drop_le _ _)
      · exact ihsl _ _ _ _ _ h
    -- splice_loop
    · intro sp tts s e s1 h
      simp only [splice_loop] at h
      split at h
      · have h2 := ihsl _ _ _ _ _ h
        simp only [PState.shift_input] at h2
        exact le_trans h2 (wts_drop_le _ _)
      · unfold splice_finish at h
        split at h
        · exact nomatch h
        · cases h
          exact le_refl _
      · have h2 := ihsl _ _ _ _ _ h
        simp only [PState.shift_input] at h2
        exact le_trans h2 (wts_drop_le _ _)
      · unfold splice_finish at h
        split at h
        · exact nomatch h
        · cases h
          exact le_refl _
    -- element
    · intro sp nm s s1 h
      simp only [element] at h
      split at h
      · cases h
        simp
      · split at h
        · rename_i s2 heq2
          have h3 := ihat _ _ heq2
          simp at h3
          split at h
          · cases h
            have h4 := wts_drop_le 1 s2.input
            simp only [PState.shift_input, PState.push_input]
            omega
          · split at h
            · rename_i b2 s3 heq4
              cases h
              have h5 := (ihm _ _ _ heq4).1
              simp at h5 ⊢
              omega
            · exact nomatch h
            · exact nomatch h
        · exact nomatch h
        · exact nomatch h
    -- attrs
    · intro s s1 h
      simp only [attrs] at h
      split at h
      · rename_i isp esp name tail heq
        split at h
        · rename_i b2 s2 heq2
          have h3 := (ihm _ _ _ heq2).1
          have h4 := ihat _ _ h
          simp [heq] at h3
          simp at h4
          simp [heq]
          omega
        · exact nomatch h
        · exact nomatch h
      · rename_i isp qsp name tail heq
        split at h
        · rename_i esp tail2 heq2
          split at h
          · rename_i cond s2 heq3
            have h3 := ihsp _ _ _ _ heq3
            have h4 := ihat _ _ h
            simp [heq] at heq2
            simp [heq, heq2] at h3 ⊢
            simp at h4
            omega
          · exact nomatch h
          · exact nomatch h
        · have h2 := ihat _ _ h
          simp [heq] at h2 ⊢
          omega
      · cases h
        exact le_refl _
    -- block
    · intro sp tts s o s1 h
      simp only [block] at h
      split at h
      · rename_i s2 heq2
        cases h
        exact ⟨rfl, rfl, rfl, rfl⟩
      · exact nomatch h
      · exact nomatch h


/-- Fuel sufficiency: with fuel at least linear in the weight of the
remaining input, no run of the parser ever runs out of fuel. -/
theorem fuel_sufficient : ∀ fuel : Nat,
    (∀ s, 8 * wts s.input + 40 ≤ fuel → markups fuel s ≠ .oof) ∧
    (∀ s, 8 * wts s.input + 39 ≤ fuel → markup fuel s ≠ .oof) ∧
    (∀ sp c s, 8 * wts s.input + 38 ≤ fuel → if_expr_loop fuel sp c s ≠ .oof) ∧
    (∀ sp c b s, 8 * wts s.input + 37 ≤ fuel → if_else fuel sp c b s ≠ .oof) ∧
    (∀ sp s, wts s.input + 10 ≤ fuel → splice fuel sp s ≠ .oof) ∧
    (∀ sp tts s, wts s.input + 9 ≤ fuel → splice_loop fuel sp tts s ≠ .oof) ∧
    (∀ sp nm s, 8 * wts s.input + 40 ≤ fuel → element fuel sp nm s ≠ .oof) ∧
    (∀ s, 8 * wts s.input + 39 ≤ fuel → attrs fuel s ≠ .oof) ∧
    (∀ sp tts s, 8 * wts tts + 44 ≤ fuel → block fuel sp tts s ≠ .oof) := by
  intro fuel
  induction fuel with
  | zero =>
    refine ⟨?_, ?_, ?_, ?_, ?_, ?_, ?_, ?_, ?_⟩ <;> intros <;> omega
  | succ f ih =>
    obtain ⟨ihms, ihm, ihil, ihie, ihsp, ihsl, ihel, ihat, ihbl⟩ := ih
    obtain ⟨pms, pm, pil, pie, psp, psl, pel, pat, pbl⟩ := parse_progress f
    refine ⟨?_, ?_, ?_, ?_, ?_, ?_, ?_, ?_, ?_⟩
    -- markups
    · intro s hb
      simp only [markups]
      split
      · exact fun h => nomatch h
      · rename_i sp tail heq
        apply ihms
        simp only [PState.shift_input, heq, List.drop_succ_cons, List.drop_zero]
        simp only [heq, wts_cons, wt_token] at hb
        omega
      · split
        · rename_i s2 heq2
          apply ihms
          have hp := (pm _ _ _ heq2).2 rfl
          omega
        · exact fun h => nomatch h
        · exact fun h => nomatch h
        · rename_i heq2
          exact absurd heq2 (ihm _ (by omega))
    -- markup
    · intro s hb
      simp only [markup]
      split
      · exact fun h => nomatch h
      · exact fun h => nomatch h
      · rename_i dsp isp name tail heq
        split
        · split
          · exact fun h => nomatch h
          · exact fun h => nomatch h
          · rename_i heq2
            refine absurd heq2 (ihil _ _ _ ?_)
            have := wts_drop_le 2 s.input
            simp only [PState.shift_input]
            omega
        · split
          · exact fun h => nomatch h
          · exact fun h => nomatch h
          · rename_i heq2
            refine absurd heq2 (ihsp _ _ ?_)
            have := wts_drop_le 1 s.input
            simp only [PState.shift_input]
            omega
      · split
        · exact fun h => nomatch h
        · exact fun h => nomatch h
        · rename_i heq2
          refine absurd heq2 (ihsp _ _ ?_)
          have := wts_drop_le 2 s.input
          simp only [PState.shift_input]
          omega
      · split
        · exact fun h => nomatch h
        · exact fun h => nomatch h
        · rename_i heq2
          refine absurd heq2 (ihsp _ _ ?_)
          have := wts_drop_le 1 s.input
          simp only [PState.shift_input]
          omega
      · rename_i sp name tail heq
        split
        · exact fun h => nomatch h
        · exact fun h => nomatch h
        · rename_i heq2
          refine absurd heq2 (ihel _ _ _ ?_)
          simp only [PState.shift_input, heq, List.drop_succ_cons, List.drop_zero]
          simp only [heq, wts_cons, wt_token] at hb
          omega
      · rename_i gsp tts tail heq
        split
        · exact fun h => nomatch h
        · exact fun h => nomatch h
        · rename_i heq2
          refine absurd heq2 (ihbl _ _ _ ?_)
          simp only [heq, wts_cons, wt_delim] at hb
          omega
      · exact fun h => nomatch h
      · exact fun h => nomatch h
    -- if_expr_loop
    · intro sp c s hb
      simp only [if_expr_loop]
      split
      · rename_i gsp tts tail heq
        split
        · rename_i ib s2 heq2
          apply ihie
          have hblk := (pbl _ _ _ _ _ heq2).1
          rw [hblk]
          have := wts_drop_le 1 s.input
          simp only [PState.shift_input]
          omega
        · exact fun h => nomatch h
        · rename_i heq2
          refine absurd heq2 (ihbl _ _ _ ?_)
          simp only [heq, wts_cons, wt_delim] at hb
          omega
      · rename_i tt tail hne heq
        apply ihil
        simp only [PState.shift_input, heq, List.drop_succ_cons, List.drop_zero]
        have hw := wt_pos tt
        simp only [heq, wts_cons] at hb
        omega
      · exact fun h => nomatch h
    -- if_else
    · intro sp c b s hb
      simp only [if_else]
      split
      · rename_i dsp esp name tail heq
        split
        · split
          · rename_i isp name2 tail2 heq2
            split
            · split
              · exact fun h => nomatch h
              · exact fun h => nomatch h
              · rename_i heq3
                refine absurd heq3 (ihil _ _ _ ?_)
                have hd := wts_drop_le 1 (s.input.drop 2)
                simp only [PState.shift_input, heq, List.drop_succ_cons, List.drop_zero] at hd ⊢
                simp only [heq, wts_cons, wt_token] at hb
                omega
            · exact fun h => nomatch h
          · rename_i gsp tts tail2 heq2
            split
            · exact fun h => nomatch h
            · exact fun h => nomatch h
            · rename_i heq3
              refine absurd heq3 (ihbl _ _ _ ?_)
              simp only [PState.shift_input, heq, List.drop_succ_cons, List.drop_zero] at heq2
              simp only [heq, heq2, wts_cons, wt_token, wt_delim] at hb
              omega
          · exact fun h => nomatch h
        · exact fun h => nomatch h
      · exact fun h => nomatch h
    -- splice
    · intro sp s hb
      simp only [splice]
      split
      · apply ihsl
        have := wts_drop_le 1 s.input
        simp only [PState.shift_input]
        omega
      · apply ihsl
        omega
    -- splice_loop
    · intro sp tts s hb
      simp only [splice_loop]
      split
      · rename_i dsp isp name tail heq
        apply ihsl
        simp only [PState.shift_input, heq, List.drop_succ_cons, List.drop_zero]
        simp only [heq, wts_cons, wt_token] at hb
        omega
      · unfold splice_finish
        split
        · exact fun h => nomatch h
        · exact fun h => nomatch h
      · rename_i gsp d inner tail hne heq
        apply ihsl
        simp only [PState.shift_input, heq, List.drop_succ_cons, List.drop_zero]
        simp only [heq, wts_cons, wt_delim] at hb
        omega
      · unfold splice_finish
        split
        · exact fun h => nomatch h
        · exact fun h => nomatch h
    -- element
    · intro sp nm s hb
      simp only [element]
      split
      · exact fun h => nomatch h
      · split
        · rename_i s2 heq2
          have hat := pat _ _ heq2
          simp only [PState.push_input] at hat
          split
          · exact fun h => nomatch h
          · split
            · exact fun h => nomatch h
            · exact fun h => nomatch h
            · rename_i heq3
              refine absurd heq3 (ihm _ ?_)
              simp only [PState.push_input]
              omega
        · exact fun h => nomatch h
        · rename_i heq2
          refine absurd heq2 (ihat _ ?_)
          simp only [PState.push_input]
          omega
    -- attrs
    · intro s hb
      simp only [attrs]
      split
      · rename_i isp esp name tail heq
        split
        · rename_i b2 s2 heq2
          apply ihat
          have hp := (pm _ _ _ heq2).1
          simp only [PState.push_input, PState.shift_input, heq, List.drop_succ_cons,
            List.drop_zero] at hp
          simp only [PState.push_input, heq, wts_cons, wt_token] at hb ⊢
          omega
        · exact fun h => nomatch h
        · rename_i heq2
          refine absurd heq2 (ihm _ ?_)
          simp only [PState.push_input, PState.shift_input, heq, List.drop_succ_cons,
            List.drop_zero]
          simp only [heq, wts_cons, wt_token] at hb
          omega
      · rename_i isp qsp name tail heq
        split
        · rename_i esp2 tail2 heq2
          split
          · rename_i cond s2 heq3
            apply ihat
            have hp := psp _ _ _ _ heq3
            have hd := wts_drop_le 1 ((s.shift 2).input)
            simp only [PState.push_input, PState.shift_input, heq, List.drop_succ_cons,
              List.drop_zero] at hp hd ⊢
            simp only [heq, wts_cons, wt_token] at hb
            omega
          · exact fun h => nomatch h
          · rename_i heq3
            refine absurd heq3 (ihsp _ _ ?_)
            have hd := wts_drop_le 1 ((s.shift 2).input)
            have hd2 := wts_drop_le 2 s.input
            simp only [PState.shift_input] at hd hd2 ⊢
            omega
        · apply ihat
          simp only [PState.push_input, PState.shift_input, heq, List.drop_succ_cons,
            List.drop_zero]
          simp only [heq, wts_cons, wt_token] at hb
          omega
      · exact fun h => nomatch h
    -- block
    · intro sp tts s hb
      simp only [block]
      split
      · exact fun h => nomatch h
      · exact fun h => nomatch h
      · rename_i heq2
        refine absurd heq2 (ihms _ ?_)
        show 8 * wts tts + 40 ≤ f
        omega


@[simp] theorem str_empty_append (s : String) : "" ++ s = s := rfl

/-- The splice munch loop never reports a fatal error once at least one token
has been captured. -/
theorem splice_loop_not_fatal :
    ∀ fuel sp tts (s : PState) a b, tts ≠ [] → splice_loop fuel sp tts s ≠ .fatal a b := by
  intro fuel
  induction fuel with
  | zero => intro sp tts s a b hne h; exact nomatch h
  | succ f ih =>
    intro sp tts s a b hne
    simp only [splice_loop]
    split
    · exact ih _ _ _ _ _ (by simp)
    · unfold splice_finish
      split
      · rename_i hemp
        simp_all
      · exact fun h => nomatch h
    · exact ih _ _ _ _ _ (by simp)
    · unfold splice_finish
      split
      · rename_i hemp
        simp_all
      · exact fun h => nomatch h

/-- C1: unit dispatch resolves the next one-to-two tokens by ordered
first-match-wins precedence, one conjunct per rule: (1) minus followed by a
literal takes the negated-literal rule (never element dispatch); (2) a
literal alone takes the literal rule; (3) `$` followed by the identifier `if`
takes the conditional rule; (4) `$` followed by `$` takes the pass-through
splice rule; (5) `$` whose follower is neither `if` nor `$` takes the escaped
splice rule over the tokens after the `$`; (6) a plain identifier takes the
element rule with the identifier as tag name; (7) a brace-delimited group
takes the block rule; (8) an empty stream reports "unexpected end of block"
and any other prefix (a non-brace group, or a token that no earlier rule
claims — including a minus not followed by a literal) reports
"invalid syntax" at the offending token, returning false. -/
theorem C1_markup_dispatch_precedence :
    (∀ fuel (s : PState) sp1 sp2 l rest,
       s.input = .TtToken sp1 .Minus :: .TtToken sp2 (.Literal l) :: rest →
       markup (fuel + 1) s = .ok (true, literal (.TtToken sp2 (.Literal l)) true (s.shift 2))) ∧
    (∀ fuel (s : PState) sp1 l rest,
       s.input = .TtToken sp1 (.Literal l) :: rest →
       markup (fuel + 1) s = .ok (true, literal (.TtToken sp1 (.Literal l)) false (s.shift 1))) ∧
    (∀ fuel (s : PState) sp1 sp2 rest,
       s.input = .TtToken sp1 .Dollar :: .TtToken sp2 (.Ident "if") :: rest →
       markup (fuel + 1) s =
         (match if_expr fuel sp2 (s.shift 2) with
          | .ok s1 => .ok (true, s1)
          | .fatal a b => .fatal a b
          | .oof => .oof)) ∧
    (∀ fuel (s : PState) sp1 sp2 rest,
       s.input = .TtToken sp1 .Dollar :: .TtToken sp2 .Dollar :: rest →
       markup (fuel + 1) s =
         (match splice fuel sp1 (s.shift 2) with
          | .ok (e, s1) => .ok (true, s1.push (.splice e .PassThru))
          | .fatal a b => .fatal a b
          | .oof => .oof)) ∧
    (∀ fuel (s : PState) dsp rest,
       s.input = .TtToken dsp .Dollar :: rest →
       (∀ sp2 r, rest ≠ .TtToken sp2 .Dollar :: r) →
       (∀ sp2 r, rest ≠ .TtToken sp2 (.Ident "if") :: r) →
       markup (fuel + 1) s =
         (match splice fuel dsp (s.shift 1) with
          | .ok (e, s1) => .ok (true, s1.push (.splice e .Escape))
          | .fatal a b => .fatal a b
          | .oof => .oof)) ∧
    (∀ fuel (s : PState) sp1 name rest,
       s.input = .TtToken sp1 (.Ident name) :: rest →
       markup (fuel + 1) s =
         (match element fuel sp1 name (s.shift 1) with
          | .ok s1 => .ok (true, s1)
          | .fatal a b => .fatal a b
          | .oof => .oof)) ∧
    (∀ fuel (s : PState) gsp tts rest,
       s.input = .TtDelimited gsp .Brace tts :: rest →
       markup (fuel + 1) s =
         (match block fuel gsp tts (s.shift 1) with
          | .ok (stmts, s1) => .ok (true, s1.push (.push_stmts stmts))
          | .fatal a b => .fatal a b
          | .oof => .oof)) ∧
    (∀ fuel (s : PState), s.input = [] →
       markup (fuel + 1) s = .ok (false, s.err s.span "unexpected end of block")) ∧
    (∀ fuel (s : PState) gsp d tts rest, d ≠ Delim.Brace →
       s.input = .TtDelimited gsp d tts :: rest →
       markup (fuel + 1) s = .ok (false, s.err gsp "invalid syntax")) ∧
    (∀ fuel (s : PState) tsp t rest,
       s.input = .TtToken tsp t :: rest →
       t ≠ .Dollar → (∀ l, t ≠ .Literal l) → (∀ nm, t ≠ .Ident nm) →
       (t = .Minus → ∀ sp2 l r, rest ≠ .TtToken sp2 (.Literal l) :: r) →
       markup (fuel + 1) s = .ok (false, s.err tsp "invalid syntax")) := by
  refine ⟨?_, ?_, ?_, ?_, ?_, ?_, ?_, ?_, ?_, ?_⟩
  · intro fuel s sp1 sp2 l rest h
    obtain ⟨ia, inp, spn, ops, errs⟩ := s
    replace h : inp = _ := h
    subst h
    rfl
  · intro fuel s sp1 l rest h
    obtain ⟨ia, inp, spn, ops, errs⟩ := s
    replace h : inp = _ := h
    subst h
    rfl
  · intro fuel s sp1 sp2 rest h
    obtain ⟨ia, inp, spn, ops, errs⟩ := s
    replace h : inp = _ := h
    subst h
    rfl
  · intro fuel s sp1 sp2 rest h
    obtain ⟨ia, inp, spn, ops, errs⟩ := s
    replace h : inp = _ := h
    subst h
    rfl
  · intro fuel s dsp rest h hnd hni
    obtain ⟨ia, inp, spn, ops, errs⟩ := s
    replace h : inp = _ := h
    subst h
    cases rest with
    | nil => rfl
    | cons t2 r =>
      cases t2 with
      | TtDelimited a d i => rfl
      | TtToken sp2 tok2 =>
        cases tok2 with
        | Dollar => exact absurd rfl (hnd sp2 r)
        | Ident nm =>
          rcases eq_or_ne nm "if" with rfl | hne
          · exact absurd rfl (hni sp2 r)
          · simp only [markup]
            rw [if_neg hne]
        | Dot => rfl
        | Eq => rfl
        | Not => rfl
        | Question => rfl
        | Semi => rfl
        | Minus => rfl
        | Slash => rfl
        | Literal l => rfl
  · intro fuel s sp1 name rest h
    obtain ⟨ia, inp, spn, ops, errs⟩ := s
    replace h : inp = _ := h
    subst h
    rfl
  · intro fuel s gsp tts rest h
    obtain ⟨ia, inp, spn, ops, errs⟩ := s
    replace h : inp = _ := h
    subst h
    rfl
  · intro fuel s h
    obtain ⟨ia, inp, spn, ops, errs⟩ := s
    replace h : inp = _ := h
    subst h
    rfl
  · intro fuel s gsp d tts rest hd h
    obtain ⟨ia, inp, spn, ops, errs⟩ := s
    replace h : inp = _ := h
    subst h
    cases d with
    | Paren => rfl
    | Bracket => rfl
    | Brace => exact absurd rfl hd
  · intro fuel s tsp t rest h hdol hlit hid hmin
    obtain ⟨ia, inp, spn, ops, errs⟩ := s
    replace h : inp = _ := h
    subst h
    cases t with
    | Dollar => exact absurd rfl hdol
    | Literal l => exact absurd rfl (hlit l)
    | Ident nm => exact absurd rfl (hid nm)
    | Minus =>
      cases rest with
      | nil => rfl
      | cons t2 r =>
        cases t2 with
        | TtDelimited a d i => rfl
        | TtToken sp2 tok2 =>
          cases tok2 with
          | Literal l => exact absurd rfl (hmin rfl sp2 l r)
          | Dollar => rfl
          | Dot => rfl
          | Eq => rfl
          | Not => rfl
          | Question => rfl
          | Semi => rfl
          | Minus => rfl
          | Slash => rfl
          | Ident nm => rfl
    | Dot => rfl
    | Eq => rfl
    | Not => rfl
    | Question => rfl
    | Semi => rfl
    | Slash => rfl

theorem C1_witness :
    ((⟨false, [.TtToken 0 .Minus, .TtToken 1 (.Literal (.LitInt 3))], 0, [], []⟩ : PState).input =
      .TtToken 0 .Minus :: .TtToken 1 (.Literal (.LitInt 3)) :: []) ∧
    markup 1 ⟨false, [.TtToken 0 .Minus, .TtToken 1 (.Literal (.LitInt 3))], 0, [], []⟩ =
      .ok (true, literal (.TtToken 1 (.Literal (.LitInt 3))) true
        ((⟨false, [.TtToken 0 .Minus, .TtToken 1 (.Literal (.LitInt 3))], 0, [], []⟩ : PState).shift 2)) :=
  ⟨rfl, C1_markup_dispatch_precedence.1 0 _ 0 1 (.LitInt 3) [] rfl⟩

/-- C2: splice consumes exactly one token unconditionally, then greedily
extends while the next tokens are a dot-identifier pair or a non-brace
delimited group, stops at the first token matching neither continuation, and
is fatal ("expected expression for this splice") exactly when the input was
empty. -/
theorem C2_splice_behavior :
    (∀ fuel sp (s : PState) tt rest, s.input = tt :: rest →
       splice (fuel + 1) sp s = splice_loop fuel sp [tt] (s.shift 1)) ∧
    (∀ fuel sp (s : PState), s.input = [] →
       splice (fuel + 2) sp s = .fatal sp "expected expression for this splice") ∧
    (∀ fuel sp (s : PState) a b, s.input ≠ [] → splice fuel sp s ≠ .fatal a b) ∧
    (∀ fuel sp tts (s : PState) dsp isp nm rest,
       s.input = .TtToken dsp .Dot :: .TtToken isp (.Ident nm) :: rest →
       splice_loop (fuel + 1) sp tts s =
         splice_loop fuel sp (tts ++ [.TtToken dsp .Dot, .TtToken isp (.Ident nm)]) (s.shift 2)) ∧
    (∀ fuel sp tts (s : PState) gsp d inner rest, d ≠ Delim.Brace →
       s.input = .TtDelimited gsp d inner :: rest →
       splice_loop (fuel + 1) sp tts s =
         splice_loop fuel sp (tts ++ [.TtDelimited gsp d inner]) (s.shift 1)) ∧
    (∀ fuel sp tts (s : PState), splice_cont s.input = false →
       splice_loop (fuel + 1) sp tts s = splice_finish sp tts s) := by
  refine ⟨?_, ?_, ?_, ?_, ?_, ?_⟩
  · intro fuel sp s tt rest h
    obtain ⟨ia, inp, spn, ops, errs⟩ := s
    replace h : inp = _ := h
    subst h
    rfl
  · intro fuel sp s h
    obtain ⟨ia, inp, spn, ops, errs⟩ := s
    replace h : inp = _ := h
    subst h
    rfl
  · intro fuel sp s a b hne
    cases fuel with
    | zero => exact fun h => nomatch h
    | succ f =>
      obtain ⟨ia, inp, spn, ops, errs⟩ := s
      cases inp with
      | nil => simp at hne
      | cons tt rest =>
        exact splice_loop_not_fatal f sp [tt] _ a b (by simp)
  · intro fuel sp tts s dsp isp nm rest h
    obtain ⟨ia, inp, spn, ops, errs⟩ := s
    replace h : inp = _ := h
    subst h
    rfl
  · intro fuel sp tts s gsp d inner rest hd h
    obtain ⟨ia, inp, spn, ops, errs⟩ := s
    replace h : inp = _ := h
    subst h
    cases d with
    | Paren => rfl
    | Bracket => rfl
    | Brace => exact absurd rfl hd
  · intro fuel sp tts s hc
    obtain ⟨ia, inp, spn, ops, errs⟩ := s
    replace hc : splice_cont inp = false := hc
    cases inp with
    | nil => rfl
    | cons t1 rest =>
      cases t1 with
      | TtDelimited gsp d inner =>
        cases d with
        | Brace => rfl
        | Paren => exact absurd hc (by simp [splice_cont])
        | Bracket => exact absurd hc (by simp [splice_cont])
      | TtToken tsp tok =>
        cases rest with
        | nil => cases tok <;> rfl
        | cons t2 rest2 =>
          cases tok with
          | Dot =>
            cases t2 with
            | TtToken tsp2 tok2 =>
              cases tok2 <;> first | rfl | exact absurd hc (by simp [splice_cont])
            | TtDelimited a b c => rfl
          | Dollar => rfl
          | Eq => rfl
          | Not => rfl
          | Question => rfl
          | Semi => rfl
          | Minus => rfl
          | Slash => rfl
          | Literal l => rfl
          | Ident nm => rfl

theorem C2_witness :
    ((⟨false, [], 5, [], []⟩ : PState).input = []) ∧
    splice 7 3 ⟨false, [], 5, [], []⟩ = .fatal 3 "expected expression for this splice" :=
  ⟨rfl, C2_splice_behavior.2.1 5 3 _ rfl⟩


/-- C3 counterexample: for the input consisting of a single brace block
containing the string literal "a", the forked accumulator's operation
(the string append) appears in the parent's emitted sequence as the payload
of a statement-block operation, and the parent's sequence contains no
conditional-branch (emit-if) operation at all. -/
theorem C3_counterexample :
    markups 20 ⟨false, [.TtDelimited 1 .Brace [.TtToken 2 (.Literal (.LitStr "a"))]], 0, [], []⟩ =
      .ok ⟨false, [], 0, [.push_stmts [.string "a" .Escape]], []⟩ ∧
    ([Op.push_stmts [Op.string "a" .Escape]].any is_emit_if) = false :=
  ⟨rfl, rfl⟩

/-- C3 (amended): a forked accumulator's operations appear in the parent's
emitted sequence only as the captured payload of exactly one
conditional-branch (emit-if) operation — for else-if capture and
optional-attribute capture — or of exactly one statement-block operation for
nested brace blocks; in each case the parent gains exactly one operation and
the forked run starts from an empty accumulator whose captured contents are
embedded nowhere else. -/
theorem C3_fork_isolation_amended :
    (∀ fuel (s : PState) gsp tts rest stmts s2,
       s.input = .TtDelimited gsp .Brace tts :: rest →
       block fuel gsp tts (s.shift 1) = .ok (stmts, s2) →
       markup (fuel + 1) s = .ok (true, s2.push (.push_stmts stmts))) ∧
    (∀ fuel sp tts (s : PState) stmts s2,
       block fuel sp tts s = .ok (stmts, s2) →
       s2.ops = s.ops ∧ s2.input = s.input ∧ s2.in_attr = s.in_attr) ∧
    (∀ fuel sp cond body (s : PState) dsp esp isp rest s2,
       s.input = .TtToken dsp .Dollar :: .TtToken esp (.Ident "else") ::
         .TtToken isp (.Ident "if") :: rest →
       if_expr_loop fuel isp [] { (s.shift 2).shift 1 with ops := [] } = .ok s2 →
       if_else (fuel + 1) sp cond body s =
         .ok (({ s2 with ops := s.ops }).push (.emit_if cond body (some s2.ops)))) ∧
    (∀ fuel (s : PState) isp qsp esp name rest cond s2,
       s.input = .TtToken isp (.Ident name) :: .TtToken qsp .Question ::
         .TtToken esp .Eq :: rest →
       splice fuel esp ((s.shift 2).shift 1) = .ok (cond, s2) →
       attrs (fuel + 1) s =
         attrs fuel (s2.push (.emit_if (strip_outer_parens cond) [.attribute_empty name] none))) := by
  refine ⟨?_, ?_, ?_, ?_⟩
  · intro fuel s gsp tts rest stmts s2 h hb
    obtain ⟨ia, inp, spn, ops, errs⟩ := s
    replace h : inp = _ := h
    subst h
    simp only [markup, hb]
  · intro fuel sp tts s stmts s2 hb
    cases fuel with
    | zero => exact nomatch hb
    | succ f =>
      simp only [block] at hb
      split at hb
      · cases hb
        exact ⟨rfl, rfl, rfl⟩
      · exact nomatch hb
      · exact nomatch hb
  · intro fuel sp cond body s dsp esp isp rest s2 h hif
    obtain ⟨ia, inp, spn, ops, errs⟩ := s
    replace h : inp = _ := h
    subst h
    replace hif : if_expr_loop fuel isp [] ⟨ia, rest, spn, [], errs⟩ = .ok s2 := hif
    simp only [if_else, List.drop_succ_cons, List.drop_zero]
    simp only [PState.shift, PState.push, List.drop_succ_cons, List.drop_zero]
    simp only [hif]
    simp
  · intro fuel s isp qsp esp name rest cond s2 h hsp
    obtain ⟨ia, inp, spn, ops, errs⟩ := s
    replace h : inp = _ := h
    subst h
    replace hsp : splice fuel esp ⟨ia, rest, spn, ops, errs⟩ = .ok (cond, s2) := hsp
    simp only [attrs, PState.shift, List.drop_succ_cons, List.drop_zero]
    simp only [hsp]

theorem C3_amended_witness :
    ((⟨false, [.TtToken 0 (.Ident "chk"), .TtToken 1 .Question, .TtToken 2 .Eq,
        .TtToken 3 (.Ident "b")], 9, [], []⟩ : PState).input =
       .TtToken 0 (.Ident "chk") :: .TtToken 1 .Question :: .TtToken 2 .Eq ::
         [.TtToken 3 (.Ident "b")]) ∧
    splice 4 2 (((⟨false, [.TtToken 0 (.Ident "chk"), .TtToken 1 .Question, .TtToken 2 .Eq,
        .TtToken 3 (.Ident "b")], 9, [], []⟩ : PState).shift 2).shift 1) =
      .ok (⟨[.TtToken 3 (.Ident "b")]⟩, ⟨false, [], 9, [], []⟩) ∧
    attrs 5 ⟨false, [.TtToken 0 (.Ident "chk"), .TtToken 1 .Question, .TtToken 2 .Eq,
        .TtToken 3 (.Ident "b")], 9, [], []⟩ =
      attrs 4 ((⟨false, [], 9, [], []⟩ : PState).push
        (.emit_if (strip_outer_parens ⟨[.TtToken 3 (.Ident "b")]⟩) [.attribute_empty "chk"] none)) :=
  ⟨rfl, rfl, C3_fork_isolation_amended.2.2.2 4 _ 0 1 2 "chk" [.TtToken 3 (.Ident "b")]
    ⟨[.TtToken 3 (.Ident "b")]⟩ ⟨false, [], 9, [], []⟩ rfl rfl⟩

/-- C4: literal conversion by kind — string content unchanged, char as a
one-character string, integer in decimal, floats as given, booleans as
"true"/"false"; binary and byte literals convert to nothing and the parser
reports "cannot splice binary data"; every produced string is appended as an
escaped literal-append operation. -/
theorem C4_literal_conversion :
    (∀ str, lit_to_string (.LitStr str) false = some str) ∧
    (∀ ch, lit_to_string (.LitChar ch) false = some (String.singleton ch)) ∧
    (∀ n, lit_to_string (.LitInt n) false = some (toString n)) ∧
    (∀ str, lit_to_string (.LitFloat str) false = some str) ∧
    (∀ str, lit_to_string (.LitFloatUnsuffixed str) false = some str) ∧
    (lit_to_string (.LitBool true) false = some "true") ∧
    (lit_to_string (.LitBool false) false = some "false") ∧
    (lit_to_string .LitBinary false = none) ∧
    (lit_to_string .LitByte false = none) ∧
    (∀ sp (s : PState), literal (.TtToken sp (.Literal .LitBinary)) false s =
       s.err sp "cannot splice binary data") ∧
    (∀ sp (s : PState), literal (.TtToken sp (.Literal .LitByte)) false s =
       s.err sp "cannot splice binary data") ∧
    (∀ sp l txt (s : PState), lit_to_string l false = some txt →
       literal (.TtToken sp (.Literal l)) false s = s.push (.string txt .Escape)) := by
  refine ⟨fun _ => rfl, fun _ => rfl, fun _ => rfl, fun _ => rfl, fun _ => rfl,
    rfl, rfl, rfl, rfl, fun _ _ => rfl, fun _ _ => rfl, ?_⟩
  intro sp l txt s h
  simp only [literal, h]

theorem C4_witness :
    (lit_to_string (.LitStr "x") false = some "x") ∧
    literal (.TtToken 0 (.Literal (.LitStr "x"))) false ⟨false, [], 0, [], []⟩ =
      (⟨false, [], 0, [], []⟩ : PState).push (.string "x" .Escape) :=
  ⟨rfl, C4_literal_conversion.2.2.2.2.2.2.2.2.2.2.2 0 (.LitStr "x") "x" _ rfl⟩

/-- C9: for every supported literal kind, a leading unary minus prepends
exactly one minus character to the converted text. -/
theorem C9_minus_prefix (l : Lit) (txt : String) (h : lit_to_string l false = some txt) :
    lit_to_string l true = some ("-" ++ txt) := by
  cases l <;> simp_all [lit_to_string]

theorem C9_witness :
    (lit_to_string (.LitInt 7) false = some "7") ∧ lit_to_string (.LitInt 7) true = some "-7" :=
  ⟨rfl, C9_minus_prefix (.LitInt 7) "7" rfl⟩


/-- C5: an attribute `name?` with no following `=` emits the empty-attribute
operation unconditionally; `name?=expr` strips exactly one layer of enclosing
parentheses from the extracted expression and emits a single conditional
operation whose then-branch is the single forked empty-attribute operation
and whose else-branch is absent. -/
theorem C5_optional_attribute :
    (∀ fuel (s : PState) isp qsp name rest,
       s.input = .TtToken isp (.Ident name) :: .TtToken qsp .Question :: rest →
       (∀ esp tl, rest ≠ .TtToken esp .Eq :: tl) →
       attrs (fuel + 1) s = attrs fuel ((s.shift 2).push (.attribute_empty name))) ∧
    (∀ fuel (s : PState) isp qsp esp name rest cond s2,
       s.input = .TtToken isp (.Ident name) :: .TtToken qsp .Question ::
         .TtToken esp .Eq :: rest →
       splice fuel esp ((s.shift 2).shift 1) = .ok (cond, s2) →
       attrs (fuel + 1) s =
         attrs fuel (s2.push
           (.emit_if (strip_outer_parens cond) [.attribute_empty name] none))) ∧
    (∀ gsp inner, strip_outer_parens ⟨[.TtDelimited gsp .Paren inner]⟩ = ⟨inner⟩) ∧
    (∀ gsp gsp2 inner,
       strip_outer_parens ⟨[.TtDelimited gsp .Paren [.TtDelimited gsp2 .Paren inner]]⟩ =
         ⟨[.TtDelimited gsp2 .Paren inner]⟩) ∧
    (∀ e : Expr, (∀ gsp inner, e.tts ≠ [.TtDelimited gsp .Paren inner]) →
       strip_outer_parens e = e) := by
  refine ⟨?_, ?_, fun _ _ => rfl, fun _ _ _ => rfl, ?_⟩
  · intro fuel s isp qsp name rest h hne
    obtain ⟨ia, inp, spn, ops, errs⟩ := s
    replace h : inp = _ := h
    subst h
    cases rest with
    | nil => rfl
    | cons t2 tl =>
      cases t2 with
      | TtDelimited a d i => rfl
      | TtToken sp2 tok2 =>
        cases tok2 with
        | Eq => exact absurd rfl (hne sp2 tl)
        | Dollar => rfl
        | Dot => rfl
        | Not => rfl
        | Question => rfl
        | Semi => rfl
        | Minus => rfl
        | Slash => rfl
        | Literal l => rfl
        | Ident nm => rfl
  · intro fuel s isp qsp esp name rest cond s2 h hsp
    obtain ⟨ia, inp, spn, ops, errs⟩ := s
    replace h : inp = _ := h
    subst h
    replace hsp : splice fuel esp ⟨ia, rest, spn, ops, errs⟩ = .ok (cond, s2) := hsp
    simp only [attrs, PState.shift, List.drop_succ_cons, List.drop_zero]
    simp only [hsp]
  · intro e hne
    obtain ⟨tts⟩ := e
    replace hne : ∀ gsp inner, tts ≠ [.TtDelimited gsp .Paren inner] := hne
    cases tts with
    | nil => rfl
    | cons t rest =>
      cases rest with
      | cons r rest2 =>
        cases t with
        | TtToken a b => rfl
        | TtDelimited a d i => cases d <;> rfl
      | nil =>
        cases t with
        | TtToken a b => rfl
        | TtDelimited a d i =>
          cases d with
          | Paren => exact absurd rfl (hne a i)
          | Bracket => rfl
          | Brace => rfl

theorem C5_witness :
    ((⟨false, [.TtToken 0 (.Ident "chk"), .TtToken 1 .Question], 0, [], []⟩ : PState).input =
      .TtToken 0 (.Ident "chk") :: .TtToken 1 .Question :: []) ∧
    attrs 3 ⟨false, [.TtToken 0 (.Ident "chk"), .TtToken 1 .Question], 0, [], []⟩ =
      attrs 2 (((⟨false, [.TtToken 0 (.Ident "chk"), .TtToken 1 .Question], 0, [], []⟩ :
        PState).shift 2).push (.attribute_empty "chk")) :=
  ⟨rfl, C5_optional_attribute.1 2 _ 0 1 "chk" [] rfl (fun _ _ h => nomatch h)⟩

/-- C6: an element whose attributes are followed by `/` parses no body and
emits no close-tag operation; an element not followed by `/` parses exactly
one nested markup unit as its body and then emits the matching close-tag. -/
theorem C6_element_body :
    (∀ fuel sp name (s : PState) s1 ssp rest, s.in_attr = false →
       attrs fuel (s.push (.element_open_start name)) = .ok s1 →
       s1.input = .TtToken ssp .Slash :: rest →
       element (fuel + 1) sp name s = .ok ((s1.push .element_open_end).shift 1)) ∧
    (∀ fuel sp name (s : PState) s1 b s3, s.in_attr = false →
       attrs fuel (s.push (.element_open_start name)) = .ok s1 →
       (∀ ssp rest, s1.input ≠ .TtToken ssp .Slash :: rest) →
       markup fuel (s1.push .element_open_end) = .ok (b, s3) →
       element (fuel + 1) sp name s = .ok (s3.push (.element_close name))) := by
  constructor
  · intro fuel sp name s s1 ssp rest hin hat hs1
    simp only [element, hin, Bool.false_eq_true, if_false]
    simp only [hat]
    simp only [PState.push_input, hs1]
  · intro fuel sp name s s1 b s3 hin hat hns hm
    simp only [element, hin, Bool.false_eq_true, if_false]
    simp only [hat]
    obtain ⟨ia1, inp1, spn1, ops1, errs1⟩ := s1
    replace hns : ∀ ssp rest, inp1 ≠ .TtToken ssp .Slash :: rest := hns
    cases inp1 with
    | nil => simp only [PState.push_input, hm]
    | cons t r =>
      cases t with
      | TtDelimited a d i => simp only [PState.push_input, hm]
      | TtToken tsp tok =>
        cases tok with
        | Slash => exact absurd rfl (hns tsp r)
        | Dollar => simp only [PState.push_input, hm]
        | Dot => simp only [PState.push_input, hm]
        | Eq => simp only [PState.push_input, hm]
        | Not => simp only [PState.push_input, hm]
        | Question => simp only [PState.push_input, hm]
        | Semi => simp only [PState.push_input, hm]
        | Minus => simp only [PState.push_input, hm]
        | Literal l => simp only [PState.push_input, hm]
        | Ident nm => simp only [PState.push_input, hm]

theorem C6_witness :
    ((⟨false, [.TtToken 4 .Slash], 0, [], []⟩ : PState).in_attr = false) ∧
    attrs 1 ((⟨false, [.TtToken 4 .Slash], 0, [], []⟩ : PState).push (.element_open_start "br")) =
      .ok ((⟨false, [.TtToken 4 .Slash], 0, [], []⟩ : PState).push (.element_open_start "br")) ∧
    element 2 7 "br" ⟨false, [.TtToken 4 .Slash], 0, [], []⟩ =
      .ok (((((⟨false, [.TtToken 4 .Slash], 0, [], []⟩ : PState).push
        (.element_open_start "br"))).push .element_open_end).shift 1) :=
  ⟨rfl, rfl, C6_element_body.1 1 7 "br" _ _ 4 [] rfl rfl rfl⟩

/-- C7: whenever element parsing is entered with `in_attr` true, it reports
the "unexpected element" diagnostic at the element's span and returns without
emitting any tag operation. -/
theorem C7_element_in_attr (fuel sp : Nat) (name : String) (s : PState)
    (h : s.in_attr = true) :
    element (fuel + 1) sp name s = .ok (s.err sp "unexpected element, you silly bumpkin") ∧
    (s.err sp "unexpected element, you silly bumpkin").ops = s.ops ∧
    (s.err sp "unexpected element, you silly bumpkin").errs =
      s.errs ++ [(sp, "unexpected element, you silly bumpkin")] := by
  refine ⟨?_, rfl, rfl⟩
  simp only [element, h, if_true]

theorem C7_witness :
    ((⟨true, [], 0, [], []⟩ : PState).in_attr = true) ∧
    element 1 5 "p" ⟨true, [], 0, [], []⟩ =
      .ok ((⟨true, [], 0, [], []⟩ : PState).err 5 "unexpected element, you silly bumpkin") :=
  ⟨rfl, (C7_element_in_attr 0 5 "p" _ rfl).1⟩

/-- C8: for a `name = value` attribute, the value's markup unit is parsed
with `in_attr` forced true, `in_attr` is restored to its prior value on the
non-fatal exit, and the restore changes no other parser-state field. -/
theorem C8_in_attr_save_restore :
    ∀ fuel (s : PState) isp esp name rest b s2,
      s.input = .TtToken isp (.Ident name) :: .TtToken esp .Eq :: rest →
      markup fuel { (s.shift 2).push (.attribute_start name) with in_attr := true } =
        .ok (b, s2) →
      attrs (fuel + 1) s =
        attrs fuel (({ s2 with in_attr := s.in_attr }).push .attribute_end) ∧
      ({ s2 with in_attr := s.in_attr }).in_attr = s.in_attr ∧
      ({ s2 with in_attr := s.in_attr }).input = s2.input ∧
      ({ s2 with in_attr := s.in_attr }).ops = s2.ops ∧
      ({ s2 with in_attr := s.in_attr }).errs = s2.errs ∧
      ({ s2 with in_attr := s.in_attr }).span = s2.span ∧
      ({ (s.shift 2).push (.attribute_start name) with in_attr := true }).in_attr = true := by
  intro fuel s isp esp name rest b s2 h hm
  refine ⟨?_, rfl, rfl, rfl, rfl, rfl, rfl⟩
  obtain ⟨ia, inp, spn, ops, errs⟩ := s
  replace h : inp = _ := h
  subst h
  replace hm : markup fuel ⟨true, rest, spn, ops ++ [.attribute_start name], errs⟩ =
    .ok (b, s2) := hm
  simp only [attrs, PState.shift, PState.push, List.drop_succ_cons, List.drop_zero]
  simp only [hm]

theorem C8_witness :
    ((⟨false, [.TtToken 0 (.Ident "class"), .TtToken 1 .Eq,
        .TtToken 2 (.Literal (.LitStr "x"))], 0, [], []⟩ : PState).input =
      .TtToken 0 (.Ident "class") :: .TtToken 1 .Eq ::
        [.TtToken 2 (.Literal (.LitStr "x"))]) ∧
    markup 1 { ((⟨false, [.TtToken 0 (.Ident "class"), .TtToken 1 .Eq,
        .TtToken 2 (.Literal (.LitStr "x"))], 0, [], []⟩ : PState).shift 2).push
          (.attribute_start "class") with in_attr := true } =
      .ok (true, ⟨true, [], 0, [.attribute_start "class", .string "x" .Escape], []⟩) ∧
    attrs 2 ⟨false, [.TtToken 0 (.Ident "class"), .TtToken 1 .Eq,
        .TtToken 2 (.Literal (.LitStr "x"))], 0, [], []⟩ =
      attrs 1 (({ (⟨true, [], 0, [.attribute_start "class", .string "x" .Escape], []⟩ : PState)
        with in_attr :=
          (⟨false, [.TtToken 0 (.Ident "class"), .TtToken 1 .Eq,
            .TtToken 2 (.Literal (.LitStr "x"))], 0, [], []⟩ : PState).in_attr }).push
        .attribute_end) :=
  ⟨rfl, rfl, (C8_in_attr_save_restore 1
    ⟨false, [.TtToken 0 (.Ident "class"), .TtToken 1 .Eq,
      .TtToken 2 (.Literal (.LitStr "x"))], 0, [], []⟩
    0 1 "class" [.TtToken 2 (.Literal (.LitStr "x"))]
    true ⟨true, [], 0, [.attribute_start "class", .string "x" .Escape], []⟩ rfl rfl).1⟩

/-- C10: for every finite token input the top-level loop terminates — with
fuel at least linear in the weight of the input, `markups` never exhausts its
fuel — and every successful `markup` dispatch (returning `true`) strictly
shortens the remaining input. -/
theorem C10_markups_terminates :
    (∀ (s : PState) fuel, 8 * wts s.input + 40 ≤ fuel → markups fuel s ≠ .oof) ∧
    (∀ fuel (s : PState) s1, markup fuel s = .ok (true, s1) →
       wts s1.input < wts s.input) :=
  ⟨fun s fuel hb => (fuel_sufficient fuel).1 s hb,
   fun fuel s s1 h => ((parse_progress fuel).2.1 s true s1 h).2 rfl⟩

theorem C10_witness :
    (8 * wts ((⟨false, [.TtToken 0 (.Ident "p")], 0, [], []⟩ : PState).input) + 40 ≤ 48) ∧
    markups 48 ⟨false, [.TtToken 0 (.Ident "p")], 0, [], []⟩ ≠ .oof :=
  ⟨by decide, C10_markups_terminates.1 _ 48 (by decide)⟩

end Maud
